import Mathlib

/-
Verification of the decision-evaluation pipeline and round state machine of
server.js (religion game server).  The JavaScript source is shallowly embedded:
JS string primitives (toLowerCase, trim, includes, split) are modelled as
executable functions on `List Char`; JSON values are a tagged union; the
external Gemini call and the platform JSON.parse are abstracted as oracle
parameters; numbers are modelled as integers (every numeric constant in the
pipeline is an integer and all comparisons/clamps are order-theoretic).
-/

namespace ReligionGame

/-- Lowercasing of a JS string, `s.toLowerCase()`.  `Char.toLower` performs
ASCII case folding; every configured keyword in server.js is already
lower-case, so this models the case-insensitive comparisons of the source. -/
def jsToLower (s : String) : String := String.mk (s.data.map Char.toLower)

/-- Test whether `sub` occurs at the head of `cs` (component of `includes`). -/
def atHead : List Char → List Char → Bool
  | [], _ => true
  | _ :: _, [] => false
  | a :: as, b :: bs => (a == b) && atHead as bs

/-- Test whether `sub` occurs as a contiguous run anywhere in the second list. -/
def occursIn (sub : List Char) : List Char → Bool
  | [] => sub.isEmpty
  | c :: cs => atHead sub (c :: cs) || occursIn sub cs

/-- JS `s.includes(sub)`: substring containment. -/
def jsIncludes (s sub : String) : Bool := occursIn sub.data s.data

/-- Remove leading and trailing whitespace from a character list. -/
def jsTrimList (cs : List Char) : List Char :=
  ((cs.dropWhile Char.isWhitespace).reverse.dropWhile Char.isWhitespace).reverse

/-- JS `s.trim()`. -/
def jsTrim (s : String) : String := String.mk (jsTrimList s.data)

/-- Split a character list at commas; JS `s.split(',')` (empty input gives one
empty field, exactly as in JS). -/
def splitCommaList : List Char → List (List Char)
  | [] => [[]]
  | c :: cs =>
    if c = ',' then [] :: splitCommaList cs
    else
      match splitCommaList cs with
      | r :: rs => (c :: r) :: rs
      | [] => [[c]]

/-- JS `s.split(',')` on strings. -/
def jsSplitComma (s : String) : List String := (splitCommaList s.data).map String.mk

/-- VIOLATION_KEYWORDS of server.js (lines 68-71), verbatim. -/
def VIOLATION_KEYWORDS : List String :=
  ["chia rẽ", "kích động", "xâm phạm", "chống phá", "ép buộc",
   "trái phép", "mê tín", "diễn biến hoà bình", "bạo lực"]

/-- POSITIVE_KEYWORDS of server.js (lines 74-77), verbatim. -/
def POSITIVE_KEYWORDS : List String :=
  ["hoà bình", "đoàn kết", "từ thiện", "giáo dục", "phát triển",
   "hỗ trợ", "tôn trọng", "khuyến khích", "công bằng"]

/-- NEGATIVE_KEYWORDS of server.js (lines 78-80), verbatim. -/
def NEGATIVE_KEYWORDS : List String :=
  ["bạo lực", "chiến tranh", "phân biệt", "áp bức", "mê tín"]

/-- Function clamp of server.js (line 136): Math.min(max, Math.max(min, num)). -/
def clamp (num lo hi : Int) : Int := min hi (max lo num)

/-- Tagged union of JavaScript/JSON values flowing through the parser. -/
inductive JsValue where
  | null : JsValue
  | bool (b : Bool) : JsValue
  | num (n : Int) : JsValue
  | str (s : String) : JsValue
  | arr (elems : List JsValue) : JsValue
  | obj (fields : List (String × JsValue)) : JsValue

/-- JS truthiness of a JSON value (false, 0, empty string and null are falsy). -/
def jsTruthy : JsValue → Bool
  | JsValue.null => false
  | JsValue.bool b => b
  | JsValue.num n => n != 0
  | JsValue.str s => s != ""
  | JsValue.arr _ => true
  | JsValue.obj _ => true

/-- JS `a || b` on values. -/
def jsOr (a b : JsValue) : JsValue := if jsTruthy a then a else b

/-- Association-list lookup of an object field. -/
def lookupField : List (String × JsValue) → String → Option JsValue
  | [], _ => none
  | (k, x) :: rest, key => if k = key then some x else lookupField rest key

/-- JS property access `v[key]`; `none` models `undefined`. -/
def jsField : JsValue → String → Option JsValue
  | JsValue.obj fields, key => lookupField fields key
  | _, _ => none

/-- EvaluationResult record returned by evaluateDecision / localHeuristic.
Comments may be arbitrary JS values because the parser copies whatever the
JSON carried (`parsed.comment || ...`), so `comment` is a `JsValue`. -/
structure EvalResult where
  violation : Bool
  change : Int
  comment : JsValue
  tips : List JsValue

/-- Fixed violation message of server.js (lines 247, 264, 271). -/
def violMsg : String :=
  "Bạn đã vi phạm các quy định của Nhà nước, tôn giáo của bạn sẽ bị xóa bỏ."

/-- Fixed violation result returned on a keyword or sentinel violation. -/
def violationResult : EvalResult :=
  { violation := true, change := -10000, comment := JsValue.str violMsg, tips := [] }

/-- Keyword violation screen shared by evaluateDecision (lines 261-266) and
localHeuristic (lines 244-249): some violation keyword is a substring of the
lower-cased decision. -/
def containsViolation (decision : String) : Bool :=
  VIOLATION_KEYWORDS.any (fun kw => jsIncludes (jsToLower decision) kw)

/-- Number of keywords of `kws` occurring in the lower-cased text (each keyword
counted once, as in the forEach accumulation of lines 251-252). -/
def countHits (kws : List String) (lower : String) : Int :=
  ((kws.filter (fun kw => jsIncludes lower kw)).length : Int)

/-- Function localHeuristic of server.js (lines 243-257).  The random factor
`Math.floor(Math.random() * 7) - 2` is passed as the explicit parameter
`randomFactor`. -/
def localHeuristic (decision : String) (randomFactor : Int) : EvalResult :=
  if containsViolation decision then violationResult
  else
    let lower := jsToLower decision
    let score := countHits POSITIVE_KEYWORDS lower - countHits NEGATIVE_KEYWORDS lower
    { violation := false,
      change := clamp (score * 50 + randomFactor * 20) (-150) 300,
      comment := JsValue.str "Đánh giá nhanh (heuristic).",
      tips := [] }

/-- Duck-typed Gemini response shapes accepted by parseGeminiResult
(lines 216-225): an object with a callable `response.text`, a
candidates/content/parts structure (each part with an optional `text` field),
a plain string, or anything else. -/
inductive GeminiResp where
  | textFn (t : String) : GeminiResp
  | candidates (parts : List (Option String)) : GeminiResp
  | plain (s : String) : GeminiResp
  | other : GeminiResp

/-- JS `Array.prototype.join(' ')`. -/
def joinSp : List String → String
  | [] => ""
  | [s] => s
  | s :: rest => s ++ " " ++ joinSp rest

/-- Text extraction of parseGeminiResult (lines 217-225), one case per
accepted response shape; unknown shapes leave the text empty. -/
def extractText : GeminiResp → String
  | GeminiResp.textFn t => t
  | GeminiResp.candidates parts => jsTrim (joinSp (parts.map (fun p => p.getD "")))
  | GeminiResp.plain s => s
  | GeminiResp.other => ""

/-- Index of the first occurrence of a character. -/
def firstIdxOf (c : Char) : List Char → Option Nat
  | [] => none
  | a :: as => if a = c then some 0 else (firstIdxOf c as).map (· + 1)

/-- Index of the last occurrence of a character. -/
def lastIdxOf (c : Char) : List Char → Option Nat
  | [] => none
  | a :: as =>
    match lastIdxOf c as with
    | some j => some (j + 1)
    | none => if a = c then some 0 else none

/-- Opening curly brace character. -/
def lbrace : Char := '\x7b'

/-- Closing curly brace character. -/
def rbrace : Char := '\x7d'

/-- Greedy regex match `text.match(/\x7b[\s\S]*\x7d/)` of line 228: the span
from the first opening brace to the last closing brace, when the latter comes
after the former. -/
def braceSpan (s : String) : Option String :=
  match firstIdxOf lbrace s.data, lastIdxOf rbrace s.data with
  | some i, some j =>
    if i < j then some (String.mk ((s.data.drop i).take (j - i + 1))) else none
  | _, _ => none

/-- Json text chosen at line 229: the brace span when one exists, otherwise the
full trimmed text. -/
def jsonTextOf (t : String) : String := (braceSpan t).getD t

/-- Triple extracted by parseGeminiResult on success (lines 236-239). -/
structure ParsedResult where
  change : Int
  comment : JsValue
  tips : List JsValue

/-- Error kinds of the Gemini pipeline: getApiKeys throwing on an empty pool
(line 172), the key loop exhausting all keys (line 213, carrying the last
observed per-key error message, `none` when the pool was empty), the empty
response throw (line 227) and the JSON.parse failure throw (line 234). -/
inductive GeminiError where
  | noKeys : GeminiError
  | allFailed (lastErr : Option String) : GeminiError
  | emptyResponse : GeminiError
  | notJson : GeminiError

/-- Field `change` of the parsed JSON: the number when `typeof` is number,
otherwise 0 (line 236). -/
def parsedChangeOf (v : JsValue) : Int :=
  match jsField v "change" with
  | some (JsValue.num n) => n
  | _ => 0

/-- Field `comment` of the parsed JSON: `parsed.comment || ''` (line 237). -/
def parsedCommentOf (v : JsValue) : JsValue :=
  match jsField v "comment" with
  | some c => jsOr c (JsValue.str "")
  | none => JsValue.str ""

/-- Field `tips` of the parsed JSON: the array when `Array.isArray`, otherwise
the empty array (line 238). -/
def parsedTipsOf (v : JsValue) : List JsValue :=
  match jsField v "tips" with
  | some (JsValue.arr xs) => xs
  | _ => []

/-- Function parseGeminiResult of server.js (lines 216-240).  The platform
JSON.parse is abstracted as the oracle `jsonParse` (`none` models a parse
exception). -/
def parseGeminiResult (jsonParse : String → Option JsValue) (resp : GeminiResp) :
    Except GeminiError ParsedResult :=
  let text := jsTrim (extractText resp)
  if text = "" then Except.error GeminiError.emptyResponse
  else
    match jsonParse (jsonTextOf text) with
    | none => Except.error GeminiError.notJson
    | some v => Except.ok ⟨parsedChangeOf v, parsedCommentOf v, parsedTipsOf v⟩

/-- Environment variables consumed by getApiKeys (lines 166-170); an unset
variable is the empty string (JS `|| ''` / filter(Boolean)). -/
structure EnvConfig where
  geminiApiKeysEnv : String
  geminiApiKey : String
  apiKey : String
  googleApiKey : String

/-- Combined credential list of getApiKeys (lines 167-170): the comma-split,
trimmed, nonempty entries of GEMINI_API_KEYS, then the nonempty single-key
variables, capped at 6. -/
def apiKeyList (conf : EnvConfig) : List String :=
  let list := ((jsSplitComma conf.geminiApiKeysEnv).map jsTrim).filter (fun k => k ≠ "")
  let singles := [conf.geminiApiKey, conf.apiKey, conf.googleApiKey].filter (fun k => k ≠ "")
  ((list ++ singles).filter (fun k => k ≠ "")).take 6

/-- Function getApiKeys of server.js (lines 166-175): the combined list, or a
throw when it is empty. -/
def getApiKeys (conf : EnvConfig) : Except GeminiError (List String) :=
  if apiKeyList conf = [] then Except.error GeminiError.noKeys
  else Except.ok (apiKeyList conf)

/-- Key loop of callGemini (lines 198-213).  `attempt` is the oracle for one
generateContent call with a given key (client acquisition and network call);
the prompt, constant across the loop, is absorbed into the oracle.  The
accumulator carries the last observed error, returned when the pool is
exhausted. -/
def tryKeys (attempt : String → Except String GeminiResp) :
    List String → Option String → Except GeminiError GeminiResp
  | [], lastErr => Except.error (GeminiError.allFailed lastErr)
  | key :: rest, _lastErr =>
    match attempt key with
    | Except.ok r => Except.ok r
    | Except.error e => tryKeys attempt rest (some e)

/-- Function callGemini of server.js (lines 195-214): obtain the key pool
(throwing when empty) and run the failover loop. -/
def callGemini (conf : EnvConfig) (attempt : String → Except String GeminiResp) :
    Except GeminiError GeminiResp :=
  match getApiKeys conf with
  | Except.error e => Except.error e
  | Except.ok keys => tryKeys attempt keys none

/-- Client handle created by `new GoogleGenAI({apiKey})` (line 190), bound to
its credential. -/
structure GenAIClient where
  apiKey : String

/-- Association-list lookup in the process-wide client cache. -/
def lookupClient : List (String × GenAIClient) → String → Option GenAIClient
  | [], _ => none
  | (k, c) :: rest, key => if k = key then some c else lookupClient rest key

/-- Function getClientForKey of server.js (lines 177-193): return the cached
client for the key, or create one, cache it and return it.  The cache
(aiClientCache, line 7) is explicit state. -/
def getClientForKey (cache : List (String × GenAIClient)) (key : String) :
    GenAIClient × List (String × GenAIClient) :=
  match lookupClient cache key with
  | some c => (c, cache)
  | none => (⟨key⟩, cache ++ [(key, ⟨key⟩)])

/-- Body of the try block of evaluateDecision (lines 268-269): call Gemini and
parse the response, propagating either failure. -/
def scoreAndParse (conf : EnvConfig) (attempt : String → Except String GeminiResp)
    (jsonParse : String → Option JsValue) : Except GeminiError ParsedResult :=
  match callGemini conf attempt with
  | Except.error e => Except.error e
  | Except.ok resp => parseGeminiResult jsonParse resp

/-- Function evaluateDecision of server.js (lines 260-283).  The context
argument of the source flows only into the prompt and is therefore absorbed
into the `attempt` oracle; `randomFactor` is the random draw consumed by the
heuristic fallback. -/
def evaluateDecision (decision : String) (conf : EnvConfig)
    (attempt : String → Except String GeminiResp)
    (jsonParse : String → Option JsValue) (randomFactor : Int) : EvalResult :=
  if containsViolation decision then violationResult
  else
    match scoreAndParse conf attempt jsonParse with
    | Except.ok parsed =>
      if parsed.change ≤ -10000 then
        { violation := true, change := -10000,
          comment := jsOr parsed.comment (JsValue.str violMsg), tips := parsed.tips }
      else
        { violation := false, change := clamp parsed.change (-400) 400,
          comment := jsOr parsed.comment (JsValue.str ""), tips := parsed.tips }
    | Except.error _ => localHeuristic decision randomFactor

/-- Change entry of a history record: the numeric change, or the literal
string marker pushed on a violation (line 694). -/
inductive RecChange where
  | num (n : Int) : RecChange
  | viPham : RecChange

/-- History record pushed by the POST /game handler (lines 694 and 703); the
violation push carries no tips field. -/
structure RoundRecord where
  round : Int
  decision : String
  change : RecChange
  comment : JsValue
  tips : Option (List JsValue)

/-- Per-session game state (created at lines 550-555 and 589-594). -/
structure Game where
  religion : String
  followers : Int
  round : Int
  history : List RoundRecord
  lastFeedback : Option EvalResult

/-- Caller-visible failures of the POST /game handler: no active game
(redirect to /, lines 602-607) and empty decision text (redirect back to
/game, lines 680-684); neither mutates the session. -/
inductive ApplyError where
  | invalidState : ApplyError
  | emptyInput : ApplyError

/-- Transition of the POST /game handler (lines 674-713): guard on an active
game and a nonempty trimmed decision, evaluate, then either the violation
transition (followers zeroed, violation record appended, round jumped to 11)
or the normal transition (followers moved and floored at 0, numeric record
appended, round incremented). -/
def applyDecision (gameOpt : Option Game) (formDecision : String) (conf : EnvConfig)
    (attempt : String → Except String GeminiResp)
    (jsonParse : String → Option JsValue) (randomFactor : Int) :
    Except ApplyError (Game × EvalResult) :=
  match gameOpt with
  | none => Except.error ApplyError.invalidState
  | some game =>
    let decision := jsTrim formDecision
    if decision = "" then Except.error ApplyError.emptyInput
    else
      let result := evaluateDecision decision conf attempt jsonParse randomFactor
      if result.violation then
        Except.ok
          ({ game with
              followers := 0,
              history := game.history ++
                [{ round := game.round, decision := decision, change := RecChange.viPham,
                   comment := result.comment, tips := none }],
              lastFeedback := some result,
              round := 11 }, result)
      else
        let moved := game.followers + result.change
        Except.ok
          ({ game with
              followers := if moved < 0 then 0 else moved,
              history := game.history ++
                [{ round := game.round, decision := decision,
                   change := RecChange.num result.change,
                   comment := result.comment, tips := some result.tips }],
              lastFeedback := some result,
              round := game.round + 1 }, result)

/-! Helper lemmas shared by the claim theorems. -/

theorem clamp_lower (num lo hi : Int) (h : lo ≤ hi) : lo ≤ clamp num lo hi := by
  unfold clamp; omega

theorem clamp_upper (num lo hi : Int) : clamp num lo hi ≤ hi := by
  unfold clamp; omega

theorem containsViolation_of_kw (d kw : String) (hmem : kw ∈ VIOLATION_KEYWORDS)
    (hsub : jsIncludes (jsToLower d) kw = true) : containsViolation d = true :=
  List.any_eq_true.mpr ⟨kw, hmem, hsub⟩

theorem not_includes_of_no_violation (d kw : String) (hmem : kw ∈ VIOLATION_KEYWORDS)
    (hnv : containsViolation d = false) : jsIncludes (jsToLower d) kw = false := by
  have h := List.any_eq_false.mp hnv
  exact Bool.eq_false_iff.mpr (h kw hmem)

theorem localHeuristic_of_violation (d : String) (rf : Int)
    (h : containsViolation d = true) : localHeuristic d rf = violationResult := by
  simp [localHeuristic, h]

theorem localHeuristic_of_no_violation (d : String) (rf : Int)
    (h : containsViolation d = false) :
    localHeuristic d rf =
      { violation := false,
        change := clamp ((countHits POSITIVE_KEYWORDS (jsToLower d) -
          countHits NEGATIVE_KEYWORDS (jsToLower d)) * 50 + rf * 20) (-150) 300,
        comment := JsValue.str "Đánh giá nhanh (heuristic).", tips := [] } := by
  simp [localHeuristic, h]

theorem localHeuristic_wf (d : String) (rf : Int) :
    ((localHeuristic d rf).violation = true → (localHeuristic d rf).change = -10000) ∧
    ((localHeuristic d rf).violation = false →
      -150 ≤ (localHeuristic d rf).change ∧ (localHeuristic d rf).change ≤ 300) := by
  cases h : containsViolation d with
  | true =>
    rw [localHeuristic_of_violation d rf h]
    exact ⟨fun _ => rfl, fun hc => by simp [violationResult] at hc⟩
  | false =>
    rw [localHeuristic_of_no_violation d rf h]
    exact ⟨fun hc => by simp at hc,
      fun _ => ⟨clamp_lower _ _ _ (by omega), clamp_upper _ _ _⟩⟩

theorem evaluateDecision_of_violation (d : String) (conf : EnvConfig)
    (attempt : String → Except String GeminiResp) (jsonParse : String → Option JsValue)
    (rf : Int) (h : containsViolation d = true) :
    evaluateDecision d conf attempt jsonParse rf = violationResult := by
  simp [evaluateDecision, h]

theorem evaluateDecision_of_error (d : String) (conf : EnvConfig)
    (attempt : String → Except String GeminiResp) (jsonParse : String → Option JsValue)
    (rf : Int) (e : GeminiError) (hnv : containsViolation d = false)
    (herr : scoreAndParse conf attempt jsonParse = Except.error e) :
    evaluateDecision d conf attempt jsonParse rf = localHeuristic d rf := by
  simp [evaluateDecision, hnv, herr]

theorem evaluateDecision_of_ok (d : String) (conf : EnvConfig)
    (attempt : String → Except String GeminiResp) (jsonParse : String → Option JsValue)
    (rf : Int) (parsed : ParsedResult) (hnv : containsViolation d = false)
    (hok : scoreAndParse conf attempt jsonParse = Except.ok parsed) :
    evaluateDecision d conf attempt jsonParse rf =
      if parsed.change ≤ -10000 then
        { violation := true, change := -10000,
          comment := jsOr parsed.comment (JsValue.str violMsg), tips := parsed.tips }
      else
        { violation := false, change := clamp parsed.change (-400) 400,
          comment := jsOr parsed.comment (JsValue.str ""), tips := parsed.tips } := by
  simp [evaluateDecision, hnv, hok]

theorem evaluateDecision_wf (d : String) (conf : EnvConfig)
    (attempt : String → Except String GeminiResp) (jsonParse : String → Option JsValue)
    (rf : Int) :
    ((evaluateDecision d conf attempt jsonParse rf).violation = true →
      (evaluateDecision d conf attempt jsonParse rf).change = -10000) ∧
    ((evaluateDecision d conf attempt jsonParse rf).violation = false →
      -400 ≤ (evaluateDecision d conf attempt jsonParse rf).change ∧
      (evaluateDecision d conf attempt jsonParse rf).change ≤ 400) := by
  cases hnv : containsViolation d with
  | true =>
    rw [evaluateDecision_of_violation d conf attempt jsonParse rf hnv]
    exact ⟨fun _ => rfl, fun hc => by simp [violationResult] at hc⟩
  | false =>
    cases hsp : scoreAndParse conf attempt jsonParse with
    | error e =>
      rw [evaluateDecision_of_error d conf attempt jsonParse rf e hnv hsp]
      have hw := localHeuristic_wf d rf
      exact ⟨hw.1, fun hc => ⟨by have := (hw.2 hc).1; omega, by have := (hw.2 hc).2; omega⟩⟩
    | ok parsed =>
      rw [evaluateDecision_of_ok d conf attempt jsonParse rf parsed hnv hsp]
      by_cases hch : parsed.change ≤ -10000
      · rw [if_pos hch]
        exact ⟨fun _ => rfl, fun hc => by simp at hc⟩
      · rw [if_neg hch]
        exact ⟨fun hc => by simp at hc,
          fun _ => ⟨clamp_lower _ _ _ (by omega), clamp_upper _ _ _⟩⟩

/-- C1: for every decision text and context, evaluate never raises: the
result is always a well-formed EvaluationResult (violation forces the
sentinel change, non-violation forces a change in [-400, 400]), and any
failure of the external-service call or of the response parsing resolves to
the heuristic scorer result, so the round state machine never observes a
partial or exceptional evaluation output. -/
theorem c1_evaluate_never_raises (d : String) (conf : EnvConfig)
    (attempt : String → Except String GeminiResp) (jsonParse : String → Option JsValue)
    (rf : Int) :
    ((evaluateDecision d conf attempt jsonParse rf).violation = true →
      (evaluateDecision d conf attempt jsonParse rf).change = -10000) ∧
    ((evaluateDecision d conf attempt jsonParse rf).violation = false →
      -400 ≤ (evaluateDecision d conf attempt jsonParse rf).change ∧
      (evaluateDecision d conf attempt jsonParse rf).change ≤ 400) ∧
    (∀ e, containsViolation d = false →
      scoreAndParse conf attempt jsonParse = Except.error e →
      evaluateDecision d conf attempt jsonParse rf = localHeuristic d rf) := by
  refine ⟨(evaluateDecision_wf d conf attempt jsonParse rf).1,
    (evaluateDecision_wf d conf attempt jsonParse rf).2, ?_⟩
  intro e hnv herr
  exact evaluateDecision_of_error d conf attempt jsonParse rf e hnv herr

/-- Witness for C1 at a concrete input: with no credentials configured the
pipeline fails and the evaluation of a non-violating decision resolves to the
heuristic result. -/
theorem c1_evaluate_never_raises_witness :
    evaluateDecision "xin chào" ⟨"", "", "", ""⟩ (fun _ => Except.error "down")
      (fun _ => none) 1 = localHeuristic "xin chào" 1 :=
  (c1_evaluate_never_raises "xin chào" ⟨"", "", "", ""⟩ (fun _ => Except.error "down")
    (fun _ => none) 1).2.2 GeminiError.noKeys rfl rfl

/-- C2: a decision containing a configured violation keyword as a substring of
its lower-cased text evaluates to the fixed violation result (violation true,
change -10000), and the result is independent of the scoring backend, the key
pool and the parser: they are never consulted. -/
theorem c2_keyword_violation_short_circuits (d kw : String)
    (hmem : kw ∈ VIOLATION_KEYWORDS) (hsub : jsIncludes (jsToLower d) kw = true) :
    (∀ conf attempt jsonParse rf,
      evaluateDecision d conf attempt jsonParse rf = violationResult) ∧
    (∀ conf conf2 attempt attempt2 jsonParse jsonParse2 rf,
      evaluateDecision d conf attempt jsonParse rf =
        evaluateDecision d conf2 attempt2 jsonParse2 rf) := by
  have hv := containsViolation_of_kw d kw hmem hsub
  constructor
  · intro conf attempt jsonParse rf
    exact evaluateDecision_of_violation d conf attempt jsonParse rf hv
  · intro conf conf2 attempt attempt2 jsonParse jsonParse2 rf
    rw [evaluateDecision_of_violation d conf attempt jsonParse rf hv,
      evaluateDecision_of_violation d conf2 attempt2 jsonParse2 rf hv]

/-- Witness for C2 at a concrete input: a decision containing the violation
keyword evaluates to the fixed violation result with a dead backend. -/
theorem c2_keyword_violation_short_circuits_witness :
    evaluateDecision "dùng bạo lực" ⟨"k1", "", "", ""⟩ (fun _ => Except.error "down")
      (fun _ => none) 0 = violationResult :=
  (c2_keyword_violation_short_circuits "dùng bạo lực" "bạo lực" (by decide) (by decide)).1
    ⟨"k1", "", "", ""⟩ (fun _ => Except.error "down") (fun _ => none) 0

/-- C3: when the backend call and the parse succeed, a parsed change at or
below the sentinel threshold yields the fixed violation result with change
-10000 (keeping the model comment when truthy), any other parsed change yields
a non-violation with the change clamped to [-400, 400]; and every
non-violating evaluation has its change in [-400, 400]. -/
theorem c3_success_path_clamps (d : String) (conf : EnvConfig)
    (attempt : String → Except String GeminiResp) (jsonParse : String → Option JsValue)
    (rf : Int) (parsed : ParsedResult) (hnv : containsViolation d = false)
    (hok : scoreAndParse conf attempt jsonParse = Except.ok parsed) :
    (parsed.change ≤ -10000 →
      evaluateDecision d conf attempt jsonParse rf =
        { violation := true, change := -10000,
          comment := jsOr parsed.comment (JsValue.str violMsg), tips := parsed.tips }) ∧
    (-10000 < parsed.change →
      evaluateDecision d conf attempt jsonParse rf =
        { violation := false, change := clamp parsed.change (-400) 400,
          comment := jsOr parsed.comment (JsValue.str ""), tips := parsed.tips } ∧
      -400 ≤ clamp parsed.change (-400) 400 ∧ clamp parsed.change (-400) 400 ≤ 400) ∧
    ((evaluateDecision d conf attempt jsonParse rf).violation = false →
      -400 ≤ (evaluateDecision d conf attempt jsonParse rf).change ∧
      (evaluateDecision d conf attempt jsonParse rf).change ≤ 400) := by
  have he := evaluateDecision_of_ok d conf attempt jsonParse rf parsed hnv hok
  refine ⟨?_, ?_, (evaluateDecision_wf d conf attempt jsonParse rf).2⟩
  · intro hch
    rw [he, if_pos hch]
  · intro hch
    rw [he, if_neg (by omega)]
    exact ⟨rfl, clamp_lower _ _ _ (by omega), clamp_upper _ _ _⟩

/-- Witness for C3 at a concrete input: the backend returns change 120, and
the evaluation keeps it (inside the clamp range). -/
theorem c3_success_path_clamps_witness :
    evaluateDecision "abc" ⟨"k1", "", "", ""⟩
        (fun _ => Except.ok (GeminiResp.plain "\x7b\x22change\x22: 120\x7d"))
        (fun _ => some (JsValue.obj [("change", JsValue.num 120)])) 0 =
      { violation := false, change := clamp 120 (-400) 400,
        comment := jsOr (JsValue.str "") (JsValue.str ""),
        tips := ([] : List JsValue) } ∧
    -400 ≤ clamp (120 : Int) (-400) 400 ∧ clamp (120 : Int) (-400) 400 ≤ 400 :=
  (c3_success_path_clamps "abc" ⟨"k1", "", "", ""⟩
    (fun _ => Except.ok (GeminiResp.plain "\x7b\x22change\x22: 120\x7d"))
    (fun _ => some (JsValue.obj [("change", JsValue.num 120)])) 0
    ⟨120, JsValue.str "", []⟩ rfl rfl).2.1 (by decide)

/-- C6: the heuristic scorer always succeeds: a keyword violation returns the
fixed violation result, otherwise the change is exactly the clamped
score-and-jitter formula (score times 50 plus jitter times 20, clamped to
[-150, 300]), so every non-violating heuristic change lies in [-150, 300] for
every jitter value. -/
theorem c6_heuristic_bounds (d : String) (rf : Int) :
    (containsViolation d = true → localHeuristic d rf = violationResult) ∧
    (containsViolation d = false →
      localHeuristic d rf =
        { violation := false,
          change := clamp ((countHits POSITIVE_KEYWORDS (jsToLower d) -
            countHits NEGATIVE_KEYWORDS (jsToLower d)) * 50 + rf * 20) (-150) 300,
          comment := JsValue.str "Đánh giá nhanh (heuristic).", tips := [] } ∧
      (localHeuristic d rf).violation = false ∧
      -150 ≤ (localHeuristic d rf).change ∧ (localHeuristic d rf).change ≤ 300) := by
  refine ⟨localHeuristic_of_violation d rf, ?_⟩
  intro hnv
  have he := localHeuristic_of_no_violation d rf hnv
  refine ⟨he, ?_⟩
  rw [he]
  exact ⟨rfl, clamp_lower _ _ _ (by omega), clamp_upper _ _ _⟩

/-- Witness for C6 at a concrete input: one positive keyword and jitter 4
gives change 130, within [-150, 300]. -/
theorem c6_heuristic_bounds_witness :
    localHeuristic "làm từ thiện" 4 =
      { violation := false,
        change := clamp ((countHits POSITIVE_KEYWORDS (jsToLower "làm từ thiện") -
          countHits NEGATIVE_KEYWORDS (jsToLower "làm từ thiện")) * 50 + 4 * 20) (-150) 300,
        comment := JsValue.str "Đánh giá nhanh (heuristic).", tips := [] } ∧
    (localHeuristic "làm từ thiện" 4).violation = false ∧
    -150 ≤ (localHeuristic "làm từ thiện" 4).change ∧
    (localHeuristic "làm từ thiện" 4).change ≤ 300 :=
  (c6_heuristic_bounds "làm từ thiện" 4).2 (by decide)

/-- C4: for an active session (round in [1, 10]) and a nonempty trimmed
decision, applyDecision succeeds and satisfies exactly one of two
postconditions: on a violation it zeroes followers, appends one sentinel
record, jumps the round to 11 and stores lastFeedback; otherwise it moves
followers (floored at 0), appends one numeric record, increments the round by
exactly one and stores lastFeedback.  Followers are never left negative and
the round never decreases. -/
theorem c4_apply_decision_postconditions (g : Game) (d : String) (conf : EnvConfig)
    (attempt : String → Except String GeminiResp) (jsonParse : String → Option JsValue)
    (rf : Int) (h1 : 1 ≤ g.round) (h2 : g.round ≤ 10) (hd : jsTrim d ≠ "") :
    ∃ g2 r, applyDecision (some g) d conf attempt jsonParse rf = Except.ok (g2, r) ∧
      (r.violation = true →
        g2.followers = 0 ∧
        g2.history = g.history ++ [{ round := g.round, decision := jsTrim d,
                                     change := RecChange.viPham, comment := r.comment,
                                     tips := none }] ∧
        g2.round = 11 ∧ g2.lastFeedback = some r) ∧
      (r.violation = false →
        g2.followers = max 0 (g.followers + r.change) ∧
        g2.history = g.history ++ [{ round := g.round, decision := jsTrim d,
                                     change := RecChange.num r.change, comment := r.comment,
                                     tips := some r.tips }] ∧
        g2.round = g.round + 1 ∧ g2.lastFeedback = some r) ∧
      0 ≤ g2.followers ∧ g.round ≤ g2.round := by
  set r := evaluateDecision (jsTrim d) conf attempt jsonParse rf with hrdef
  cases hv : r.violation with
  | true =>
    refine ⟨{ g with followers := 0,
                     history := g.history ++ [{ round := g.round, decision := jsTrim d,
                                                change := RecChange.viPham,
                                                comment := r.comment, tips := none }],
                     lastFeedback := some r, round := 11 }, r, ?_, ?_, ?_, ?_, ?_⟩
    · simp [applyDecision, hd, ← hrdef, hv]
    · intro _; exact ⟨rfl, rfl, rfl, rfl⟩
    · intro hc; rw [hv] at hc; cases hc
    · exact le_refl 0
    · show g.round ≤ 11; omega
  | false =>
    refine ⟨{ g with
              followers := if g.followers + r.change < 0 then 0 else g.followers + r.change,
              history := g.history ++ [{ round := g.round, decision := jsTrim d,
                                         change := RecChange.num r.change,
                                         comment := r.comment, tips := some r.tips }],
              lastFeedback := some r, round := g.round + 1 }, r, ?_, ?_, ?_, ?_, ?_⟩
    · simp [applyDecision, hd, ← hrdef, hv]
    · intro hc; rw [hv] at hc; cases hc
    · intro _
      refine ⟨?_, rfl, rfl, rfl⟩
      show (if g.followers + r.change < 0 then 0 else g.followers + r.change) =
        max 0 (g.followers + r.change)
      split <;> omega
    · show (0 : Int) ≤ if g.followers + r.change < 0 then 0 else g.followers + r.change
      split <;> omega
    · show g.round ≤ g.round + 1; omega

/-- Witness for C4 at a concrete input: a fresh game, a violating decision,
and the violation postcondition holds. -/
theorem c4_apply_decision_postconditions_witness :
    ∃ g2 r, applyDecision (some ⟨"Phật giáo", 100, 1, [], none⟩) "kích động" ⟨"", "", "", ""⟩
        (fun _ => Except.error "down") (fun _ => none) 0 = Except.ok (g2, r) ∧
      (r.violation = true →
        g2.followers = 0 ∧
        g2.history = ([] : List RoundRecord) ++ [{ round := (1 : Int),
                                                   decision := jsTrim "kích động",
                                                   change := RecChange.viPham,
                                                   comment := r.comment, tips := none }] ∧
        g2.round = 11 ∧ g2.lastFeedback = some r) ∧
      (r.violation = false →
        g2.followers = max 0 (100 + r.change) ∧
        g2.history = ([] : List RoundRecord) ++ [{ round := (1 : Int),
                                                   decision := jsTrim "kích động",
                                                   change := RecChange.num r.change,
                                                   comment := r.comment,
                                                   tips := some r.tips }] ∧
        g2.round = 1 + 1 ∧ g2.lastFeedback = some r) ∧
      0 ≤ g2.followers ∧ (1 : Int) ≤ g2.round :=
  c4_apply_decision_postconditions ⟨"Phật giáo", 100, 1, [], none⟩
    "kích động" ⟨"", "", "", ""⟩ (fun _ => Except.error "down") (fun _ => none) 0
    (by decide) (by decide) (by decide)

/-- C8 counterexample: the claim requires InvalidState for every session whose
round is already past 10, but the POST /game handler checks only that a game
object exists; a session with round 11 and a live game object is processed,
not rejected (the submission even mutates it). -/
theorem c8_counterexample :
    applyDecision (some ⟨"X", 50, 11, [], none⟩) "bạo lực" ⟨"", "", "", ""⟩
      (fun _ => Except.error "down") (fun _ => none) 0 =
      Except.ok (⟨"X", 0, 11,
        [⟨11, "bạo lực", RecChange.viPham, JsValue.str violMsg, none⟩],
        some violationResult⟩, violationResult) := rfl

/-- C8 (amended): applyDecision fails with EmptyInput, with no mutation, when
the trimmed decision text is empty, and fails with InvalidState, with no
mutation, when there is no active game object; the active-state check does
not cover the round counter, so a session whose game object exists is
processed even when its round is already past 10 (the terminal-round guard
exists only on the GET /game path). -/
theorem c8_guards_amended (gameOpt : Option Game) (d : String) (conf : EnvConfig)
    (attempt : String → Except String GeminiResp) (jsonParse : String → Option JsValue)
    (rf : Int) :
    (gameOpt = none →
      applyDecision gameOpt d conf attempt jsonParse rf =
        Except.error ApplyError.invalidState) ∧
    (∀ g, gameOpt = some g → jsTrim d = "" →
      applyDecision gameOpt d conf attempt jsonParse rf =
        Except.error ApplyError.emptyInput) ∧
    (∀ g, gameOpt = some g → jsTrim d ≠ "" →
      applyDecision gameOpt d conf attempt jsonParse rf ≠
        Except.error ApplyError.invalidState) := by
  refine ⟨?_, ?_, ?_⟩
  · intro h; subst h; rfl
  · intro g hg he; subst hg; simp [applyDecision, he]
  · intro g hg hd hcontra
    subst hg
    cases hv : (evaluateDecision (jsTrim d) conf attempt jsonParse rf).violation <;>
      simp [applyDecision, hd, hv] at hcontra

/-- Witness for C8 (amended) at concrete inputs: a missing game is rejected
with InvalidState and a whitespace decision with EmptyInput. -/
theorem c8_guards_amended_witness :
    applyDecision none "x" ⟨"", "", "", ""⟩ (fun _ => Except.error "down")
      (fun _ => none) 0 = Except.error ApplyError.invalidState ∧
    applyDecision (some ⟨"X", 100, 1, [], none⟩) "   " ⟨"", "", "", ""⟩
      (fun _ => Except.error "down") (fun _ => none) 0 =
      Except.error ApplyError.emptyInput :=
  ⟨(c8_guards_amended none "x" ⟨"", "", "", ""⟩ (fun _ => Except.error "down")
      (fun _ => none) 0).1 rfl,
   (c8_guards_amended (some ⟨"X", 100, 1, [], none⟩) "   " ⟨"", "", "", ""⟩
      (fun _ => Except.error "down") (fun _ => none) 0).2.1
    ⟨"X", 100, 1, [], none⟩ rfl (by decide)⟩

/-- C9 counterexample: with no credential configured at all, getApiKeys does
throw, but the throw happens inside evaluateDecision's try block, is caught,
and the evaluation of a non-violating decision still resolves to a valid
heuristic result — the condition is recovered by the heuristic fallback,
contradicting the claim that no valid evaluation is possible. -/
theorem c9_counterexample :
    getApiKeys ⟨"", "", "", ""⟩ = Except.error GeminiError.noKeys ∧
    evaluateDecision "phát triển" ⟨"", "", "", ""⟩ (fun _ => Except.error "down")
        (fun _ => none) 2 = localHeuristic "phát triển" 2 ∧
    (localHeuristic "phát triển" 2).violation = false ∧
    (localHeuristic "phát triển" 2).change = 90 :=
  ⟨rfl, rfl, rfl, rfl⟩

/-- C9 (amended): the absence of any configured credential makes getApiKeys
throw NoCredentialsConfigured — and that is its only error — but the throw is
raised at evaluation time (getApiKeys runs inside callGemini inside
evaluateDecision's try block, not at startup) and is recovered by the
heuristic fallback: the evaluation of a non-violating decision still returns
the heuristic result. -/
theorem c9_no_credentials_amended (conf : EnvConfig) :
    (getApiKeys conf = Except.error GeminiError.noKeys ↔ apiKeyList conf = []) ∧
    (∀ e, getApiKeys conf = Except.error e → e = GeminiError.noKeys) ∧
    (∀ d attempt jsonParse rf, apiKeyList conf = [] → containsViolation d = false →
      evaluateDecision d conf attempt jsonParse rf = localHeuristic d rf) := by
  refine ⟨⟨?_, ?_⟩, ?_, ?_⟩
  · intro h
    by_cases hne : apiKeyList conf = []
    · exact hne
    · simp [getApiKeys, hne] at h
  · intro h; simp [getApiKeys, h]
  · intro e h
    by_cases hne : apiKeyList conf = []
    · simp [getApiKeys, hne] at h; exact h.symm
    · simp [getApiKeys, hne] at h
  · intro d attempt jsonParse rf hnil hnv
    have hsp : scoreAndParse conf attempt jsonParse = Except.error GeminiError.noKeys := by
      simp [scoreAndParse, callGemini, getApiKeys, hnil]
    exact evaluateDecision_of_error d conf attempt jsonParse rf _ hnv hsp

/-- Witness for C9 (amended) at a concrete input: the empty environment has no
key, getApiKeys throws, and evaluation still resolves to the heuristic. -/
theorem c9_no_credentials_amended_witness :
    getApiKeys ⟨"", "", "", ""⟩ = Except.error GeminiError.noKeys ∧
    evaluateDecision "đoàn kết" ⟨"", "", "", ""⟩ (fun _ => Except.error "x")
      (fun _ => none) 0 = localHeuristic "đoàn kết" 0 :=
  ⟨(c9_no_credentials_amended ⟨"", "", "", ""⟩).1.mpr rfl,
   (c9_no_credentials_amended ⟨"", "", "", ""⟩).2.2 "đoàn kết"
     (fun _ => Except.error "x") (fun _ => none) 0 rfl rfl⟩

/-- C10: the keyword sets overlap on two words appearing in both the
violation and the negative list; any decision whose lower-cased text contains
either word is classified as a violation by both the heuristic and the
orchestrator (the violation check runs first), so the negative-score
decrement for those two words is unreachable: on every non-violating decision
the negative hit count equals the count over the other three negative
keywords only. -/
theorem c10_keyword_overlap (d : String) (rf : Int) :
    ("bạo lực" ∈ VIOLATION_KEYWORDS ∧ "bạo lực" ∈ NEGATIVE_KEYWORDS ∧
      "mê tín" ∈ VIOLATION_KEYWORDS ∧ "mê tín" ∈ NEGATIVE_KEYWORDS) ∧
    ((jsIncludes (jsToLower d) "bạo lực" = true ∨ jsIncludes (jsToLower d) "mê tín" = true) →
      localHeuristic d rf = violationResult ∧
      ∀ conf attempt jsonParse rf2,
        evaluateDecision d conf attempt jsonParse rf2 = violationResult) ∧
    (containsViolation d = false →
      countHits NEGATIVE_KEYWORDS (jsToLower d) =
        countHits ["chiến tranh", "phân biệt", "áp bức"] (jsToLower d)) := by
  refine ⟨⟨by decide, by decide, by decide, by decide⟩, ?_, ?_⟩
  · intro hin
    have hv : containsViolation d = true := by
      cases hin with
      | inl h => exact containsViolation_of_kw d "bạo lực" (by decide) h
      | inr h => exact containsViolation_of_kw d "mê tín" (by decide) h
    exact ⟨localHeuristic_of_violation d rf hv,
      fun conf attempt jsonParse rf2 =>
        evaluateDecision_of_violation d conf attempt jsonParse rf2 hv⟩
  · intro hnv
    have h1 := not_includes_of_no_violation d "bạo lực" (by decide) hnv
    have h2 := not_includes_of_no_violation d "mê tín" (by decide) hnv
    simp [countHits, NEGATIVE_KEYWORDS, List.filter_cons, h1, h2]

/-- Witness for C10 at concrete inputs: a decision containing the overlapped
keyword is a heuristic violation, and on a non-violating decision the
negative count ranges over three keywords only. -/
theorem c10_keyword_overlap_witness :
    localHeuristic "mê tín dị đoan" 0 = violationResult ∧
    countHits NEGATIVE_KEYWORDS (jsToLower "giáo dục") =
      countHits ["chiến tranh", "phân biệt", "áp bức"] (jsToLower "giáo dục") :=
  ⟨((c10_keyword_overlap "mê tín dị đoan" 0).2.1 (Or.inr (by decide))).1,
   (c10_keyword_overlap "giáo dục" 0).2.2 (by decide)⟩

theorem tryKeys_first_success (attempt : String → Except String GeminiResp)
    (pre : List String) (k : String) (post : List String) (r : GeminiResp)
    (hpre : ∀ k2, k2 ∈ pre → ∃ e, attempt k2 = Except.error e)
    (hk : attempt k = Except.ok r) :
    ∀ acc, tryKeys attempt (pre ++ k :: post) acc = Except.ok r := by
  induction pre with
  | nil => intro acc; simp [tryKeys, hk]
  | cons a as ih =>
    intro acc
    obtain ⟨e, he⟩ := hpre a (List.mem_cons_self a as)
    have ih2 := ih (fun k2 hm => hpre k2 (List.mem_cons_of_mem a hm))
    simp [tryKeys, he, ih2]

theorem tryKeys_all_fail (attempt : String → Except String GeminiResp)
    (ks : List String) (klast elast : String)
    (hall : ∀ k2, k2 ∈ ks → ∃ e, attempt k2 = Except.error e)
    (hlast : attempt klast = Except.error elast) :
    ∀ acc, tryKeys attempt (ks ++ [klast]) acc =
      Except.error (GeminiError.allFailed (some elast)) := by
  induction ks with
  | nil => intro acc; simp [tryKeys, hlast]
  | cons a as ih =>
    intro acc
    obtain ⟨e, he⟩ := hall a (List.mem_cons_self a as)
    have ih2 := ih (fun k2 hm => hall k2 (List.mem_cons_of_mem a hm))
    simp [tryKeys, he, ih2]

theorem tryKeys_error_all_fail (attempt : String → Except String GeminiResp)
    (keys : List String) :
    ∀ acc err, tryKeys attempt keys acc = Except.error err →
      ∀ k2, k2 ∈ keys → ∀ r, attempt k2 ≠ Except.ok r := by
  induction keys with
  | nil => intro acc err _h k2 hm; cases hm
  | cons a as ih =>
    intro acc err h k2 hm r hcontra
    cases ha : attempt a with
    | ok r2 =>
      rw [show tryKeys attempt (a :: as) acc = Except.ok r2 by simp [tryKeys, ha]] at h
      exact Except.noConfusion h
    | error e =>
      have h2 : tryKeys attempt as (some e) = Except.error err := by
        simpa [tryKeys, ha] using h
      rcases List.mem_cons.mp hm with hq | hm2
      · subst hq; rw [ha] at hcontra; exact Except.noConfusion hcontra
      · exact ih (some e) err h2 k2 hm2 r hcontra

theorem getApiKeys_ok_keys (conf : EnvConfig) (keys : List String)
    (hk : getApiKeys conf = Except.ok keys) : keys = apiKeyList conf := by
  by_cases hne : apiKeyList conf = []
  · simp [getApiKeys, hne] at hk
  · simp [getApiKeys, hne] at hk
    exact hk.symm

theorem apiKeyList_le_six (conf : EnvConfig) : (apiKeyList conf).length ≤ 6 := by
  unfold apiKeyList
  exact List.length_take_le _ _

theorem lookupClient_append_self (cache : List (String × GenAIClient)) (key : String)
    (c : GenAIClient) (h : lookupClient cache key = none) :
    lookupClient (cache ++ [(key, c)]) key = some c := by
  induction cache with
  | nil => simp [lookupClient]
  | cons p rest ih =>
    obtain ⟨k0, c0⟩ := p
    by_cases hp : k0 = key
    · simp [lookupClient, hp] at h
    · simp only [lookupClient, hp, if_false, List.cons_append] at h ⊢
      exact ih h

/-- C5: the key-pool client iterates the configured credential pool (at most
6 keys) in order, attempts each key at most once, returns the first
successful raw response, fails only when every key has failed — and then
carries the last observed error — and the per-key client handle is created
lazily once and then served from the process-wide cache. -/
theorem c5_key_pool_failover (conf : EnvConfig)
    (attempt : String → Except String GeminiResp) (keys : List String)
    (hk : getApiKeys conf = Except.ok keys) :
    keys.length ≤ 6 ∧
    (∀ pre k post r, keys = pre ++ k :: post →
      (∀ k2, k2 ∈ pre → ∃ e, attempt k2 = Except.error e) →
      attempt k = Except.ok r →
      tryKeys attempt keys none = Except.ok r ∧
      callGemini conf attempt = Except.ok r) ∧
    (∀ ks klast elast, keys = ks ++ [klast] →
      (∀ k2, k2 ∈ keys → ∃ e, attempt k2 = Except.error e) →
      attempt klast = Except.error elast →
      tryKeys attempt keys none = Except.error (GeminiError.allFailed (some elast)) ∧
      callGemini conf attempt = Except.error (GeminiError.allFailed (some elast))) ∧
    (∀ err, tryKeys attempt keys none = Except.error err →
      ∀ k2, k2 ∈ keys → ∀ r, attempt k2 ≠ Except.ok r) ∧
    (∀ cache key,
      (lookupClient cache key = none →
        getClientForKey cache key = (⟨key⟩, cache ++ [(key, (⟨key⟩ : GenAIClient))])) ∧
      (∀ c, lookupClient cache key = some c → getClientForKey cache key = (c, cache)) ∧
      getClientForKey (getClientForKey cache key).2 key = getClientForKey cache key) := by
  have hkeys := getApiKeys_ok_keys conf keys hk
  have hcall : callGemini conf attempt = tryKeys attempt keys none := by
    simp [callGemini, hk]
  refine ⟨?_, ?_, ?_, ?_, ?_⟩
  · rw [hkeys]; exact apiKeyList_le_six conf
  · intro pre k post r hsplit hpre hok
    have h := tryKeys_first_success attempt pre k post r hpre hok none
    rw [← hsplit] at h
    exact ⟨h, by rw [hcall]; exact h⟩
  · intro ks klast elast hsplit hall hlast
    have hall2 : ∀ k2, k2 ∈ ks → ∃ e, attempt k2 = Except.error e := by
      intro k2 hm
      exact hall k2 (by rw [hsplit]; exact List.mem_append_left _ hm)
    have h := tryKeys_all_fail attempt ks klast elast hall2 hlast none
    rw [← hsplit] at h
    exact ⟨h, by rw [hcall]; exact h⟩
  · intro err herr
    exact tryKeys_error_all_fail attempt keys none err herr
  · intro cache key
    refine ⟨?_, ?_, ?_⟩
    · intro h; simp [getClientForKey, h]
    · intro c h; simp [getClientForKey, h]
    · cases h : lookupClient cache key with
      | some c => simp [getClientForKey, h]
      | none =>
        simp only [getClientForKey, h]
        rw [lookupClient_append_self cache key ⟨key⟩ h]

/-- Witness for C5 at a concrete input: a pool of two keys where the first
fails and the second succeeds; the loop returns the second key's response. -/
theorem c5_key_pool_failover_witness :
    tryKeys (fun k => if k = "k2" then Except.ok (GeminiResp.plain "ok")
        else Except.error "boom") ["k1", "k2"] none =
      Except.ok (GeminiResp.plain "ok") ∧
    callGemini ⟨"k1,k2", "", "", ""⟩
      (fun k => if k = "k2" then Except.ok (GeminiResp.plain "ok")
        else Except.error "boom") = Except.ok (GeminiResp.plain "ok") :=
  (c5_key_pool_failover ⟨"k1,k2", "", "", ""⟩
    (fun k => if k = "k2" then Except.ok (GeminiResp.plain "ok")
      else Except.error "boom") ["k1", "k2"] rfl).2.1
    ["k1"] "k2" [] (GeminiResp.plain "ok") rfl
    (by
      intro k2 hm
      rw [List.mem_singleton] at hm
      subst hm
      exact ⟨"boom", rfl⟩)
    rfl

theorem firstIdxOf_decomp (c : Char) (cs : List Char) (i : Nat)
    (h : firstIdxOf c cs = some i) :
    ∃ pre suf, cs = pre ++ c :: suf ∧ pre.length = i ∧ c ∉ pre := by
  induction cs generalizing i with
  | nil => simp [firstIdxOf] at h
  | cons a as ih =>
    by_cases hac : a = c
    · subst hac
      have h0 : i = 0 := by simp [firstIdxOf] at h; omega
      subst h0
      exact ⟨[], as, rfl, rfl, by simp⟩
    · simp only [firstIdxOf, if_neg hac] at h
      rw [Option.map_eq_some'] at h
      obtain ⟨j, hj, hji⟩ := h
      obtain ⟨pre, suf, h1, h2, h3⟩ := ih j hj
      refine ⟨a :: pre, suf, by rw [h1]; rfl, by simp [h2, ← hji], ?_⟩
      intro hmem
      rcases List.mem_cons.mp hmem with hca | hcp
      · exact hac hca.symm
      · exact h3 hcp

theorem lastIdxOf_none (c : Char) (cs : List Char) (h : lastIdxOf c cs = none) :
    c ∉ cs := by
  induction cs with
  | nil => simp
  | cons a as ih =>
    intro hmem
    cases hr : lastIdxOf c as with
    | some j => simp [lastIdxOf, hr] at h
    | none =>
      simp only [lastIdxOf, hr] at h
      rcases List.mem_cons.mp hmem with hq | hm
      · rw [← hq] at h; simp at h
      · exact ih hr hm

theorem lastIdxOf_decomp (c : Char) (cs : List Char) (j : Nat)
    (h : lastIdxOf c cs = some j) :
    ∃ pre suf, cs = pre ++ c :: suf ∧ pre.length = j ∧ c ∉ suf := by
  induction cs generalizing j with
  | nil => simp [lastIdxOf] at h
  | cons a as ih =>
    cases hr : lastIdxOf c as with
    | some j2 =>
      have hj : j = j2 + 1 := by simp [lastIdxOf, hr] at h; omega
      obtain ⟨pre, suf, h1, h2, h3⟩ := ih j2 hr
      exact ⟨a :: pre, suf, by rw [h1]; rfl, by simp [h2, hj], h3⟩
    | none =>
      by_cases hac : a = c
      · have hj : j = 0 := by simp [lastIdxOf, hr, hac] at h; omega
        subst hj
        exact ⟨[], as, by simp [hac], rfl, lastIdxOf_none c as hr⟩
      · simp [lastIdxOf, hr, hac] at h

theorem firstIdxOf_le (c : Char) (pre suf : List Char) :
    ∃ i, firstIdxOf c (pre ++ c :: suf) = some i ∧ i ≤ pre.length := by
  induction pre with
  | nil => exact ⟨0, by simp [firstIdxOf], Nat.zero_le _⟩
  | cons a as ih =>
    by_cases hac : a = c
    · exact ⟨0, by simp [firstIdxOf, hac], Nat.zero_le _⟩
    · obtain ⟨i, hi, hle⟩ := ih
      refine ⟨i + 1, ?_, by simp; omega⟩
      show firstIdxOf c (a :: (as ++ c :: suf)) = some (i + 1)
      have hstep : firstIdxOf c (a :: (as ++ c :: suf)) =
          Option.map (· + 1) (firstIdxOf c (as ++ c :: suf)) := by
        simp [firstIdxOf, hac]
      rw [hstep, hi]
      rfl

theorem lastIdxOf_ge (c : Char) (pre suf : List Char) :
    ∃ j, lastIdxOf c (pre ++ c :: suf) = some j ∧ pre.length ≤ j := by
  induction pre with
  | nil =>
    cases hr : lastIdxOf c suf with
    | some j2 => exact ⟨j2 + 1, by simp [lastIdxOf, hr], Nat.zero_le _⟩
    | none => exact ⟨0, by simp [lastIdxOf, hr], Nat.zero_le _⟩
  | cons a as ih =>
    obtain ⟨j, hj, hge⟩ := ih
    refine ⟨j + 1, ?_, by simp; omega⟩
    show lastIdxOf c (a :: (as ++ c :: suf)) = some (j + 1)
    simp [lastIdxOf, hj]

theorem braceSpan_some_decomp (t m : String) (h : braceSpan t = some m) :
    ∃ pre suf, t.data = pre ++ m.data ++ suf ∧ lbrace ∉ pre ∧ rbrace ∉ suf ∧
      m.data.head? = some lbrace ∧ m.data.getLast? = some rbrace := by
  unfold braceSpan at h
  cases hf : firstIdxOf lbrace t.data with
  | none => simp [hf] at h
  | some i =>
    cases hl : lastIdxOf rbrace t.data with
    | none => simp [hf, hl] at h
    | some j =>
      simp only [hf, hl] at h
      by_cases hij : i < j
      · rw [if_pos hij, Option.some.injEq] at h
        have hm : m.data = (t.data.drop i).take (j - i + 1) := by rw [← h]
        obtain ⟨p1, t1, hp1, hp1len, hp1nb⟩ := firstIdxOf_decomp lbrace t.data i hf
        obtain ⟨p2, s2, hp2, hp2len, hp2nb⟩ := lastIdxOf_decomp rbrace t.data j hl
        have hile : i ≤ p2.length := by omega
        have hdrop1 : t.data.drop i = lbrace :: t1 := by
          rw [hp1, ← hp1len]; exact List.drop_left p1 (lbrace :: t1)
        have hdrop2 : t.data.drop i = p2.drop i ++ rbrace :: s2 := by
          rw [hp2, List.drop_append_eq_append_drop,
            Nat.sub_eq_zero_of_le (by omega), List.drop_zero]
        have hdlen : (p2.drop i).length = j - i := by
          rw [List.length_drop, hp2len]
        have hmc : m.data = p2.drop i ++ [rbrace] := by
          rw [hm, hdrop2, List.take_append_eq_append_take]
          rw [List.take_of_length_le (le_of_eq_of_le hdlen (by omega))]
          rw [hdlen]
          have h1 : j - i + 1 - (j - i) = 1 := by omega
          rw [h1]
          rfl
        have hp1take : p1 = t.data.take i := by
          rw [hp1, ← hp1len]; exact (List.take_left p1 (lbrace :: t1)).symm
        have hp2take : p2.take i = t.data.take i := by
          rw [hp2, List.take_append_eq_append_take,
            Nat.sub_eq_zero_of_le (by omega), List.take_zero, List.append_nil]
        refine ⟨p1, s2, ?_, hp1nb, hp2nb, ?_, ?_⟩
        · rw [hmc, hp1take, ← hp2take]
          calc t.data = p2 ++ rbrace :: s2 := hp2
            _ = (p2.take i ++ p2.drop i) ++ rbrace :: s2 := by rw [List.take_append_drop]
            _ = p2.take i ++ (p2.drop i ++ [rbrace]) ++ s2 := by
                simp only [List.append_assoc, List.singleton_append]
        · rw [hm, hdrop1]
          have : j - i + 1 = (j - i) + 1 := rfl
          rw [this, List.take_succ_cons]
          rfl
        · rw [hmc]
          exact List.getLast?_concat (p2.drop i)
      · rw [if_neg hij] at h
        exact Option.noConfusion h

theorem braceSpan_none_no_pair (t : String) (pre mid suf : List Char)
    (h : braceSpan t = none) :
    t.data ≠ pre ++ lbrace :: (mid ++ rbrace :: suf) := by
  intro heq
  obtain ⟨i, hf, hile⟩ := firstIdxOf_le lbrace pre (mid ++ rbrace :: suf)
  have hfi : firstIdxOf lbrace t.data = some i := by rw [heq]; exact hf
  have heq2 : t.data = (pre ++ lbrace :: mid) ++ rbrace :: suf := by rw [heq]; simp
  obtain ⟨j, hl, hjge⟩ := lastIdxOf_ge rbrace (pre ++ lbrace :: mid) suf
  have hlj : lastIdxOf rbrace t.data = some j := by rw [heq2]; exact hl
  have hlen : (pre ++ lbrace :: mid).length = pre.length + mid.length + 1 := by
    simp; omega
  have hij : i < j := by rw [hlen] at hjge; omega
  simp [braceSpan, hfi, hlj, hij] at h

/-- C7: the parser extracts text from exactly the three accepted response
shapes (callable text accessor, candidates/parts structure, plain string; any
other shape yields empty text), trims it and fails on an empty result; it
takes the greedy substring from the first opening to the last closing brace
(characterized positionally below) or the full trimmed text when no such
substring exists, fails with the malformed-response error when JSON parsing
of that text fails, and on success defaults change to 0 when the parsed
change is not a number, comment to the empty string when absent or falsy, and
tips to the empty sequence when not an array. -/
theorem c7_parser_shapes_and_defaults (jsonParse : String → Option JsValue)
    (resp : GeminiResp) :
    (∀ t, extractText (GeminiResp.textFn t) = t) ∧
    (∀ parts, extractText (GeminiResp.candidates parts) =
      jsTrim (joinSp (parts.map (fun p => p.getD "")))) ∧
    (∀ s, extractText (GeminiResp.plain s) = s) ∧
    extractText GeminiResp.other = "" ∧
    (parseGeminiResult jsonParse resp = Except.error GeminiError.emptyResponse ↔
      jsTrim (extractText resp) = "") ∧
    (∀ t m, braceSpan t = some m → ∃ pre suf,
      t.data = pre ++ m.data ++ suf ∧ lbrace ∉ pre ∧ rbrace ∉ suf ∧
      m.data.head? = some lbrace ∧ m.data.getLast? = some rbrace) ∧
    (∀ t pre mid suf, braceSpan t = none →
      t.data ≠ pre ++ lbrace :: (mid ++ rbrace :: suf)) ∧
    (jsTrim (extractText resp) ≠ "" →
      jsonParse (jsonTextOf (jsTrim (extractText resp))) = none →
      parseGeminiResult jsonParse resp = Except.error GeminiError.notJson) ∧
    (∀ v, jsTrim (extractText resp) ≠ "" →
      jsonParse (jsonTextOf (jsTrim (extractText resp))) = some v →
      parseGeminiResult jsonParse resp =
        Except.ok ⟨parsedChangeOf v, parsedCommentOf v, parsedTipsOf v⟩) ∧
    (∀ v n, jsField v "change" = some (JsValue.num n) → parsedChangeOf v = n) ∧
    (∀ v, (∀ n, jsField v "change" ≠ some (JsValue.num n)) → parsedChangeOf v = 0) ∧
    (∀ v, jsField v "comment" = none → parsedCommentOf v = JsValue.str "") ∧
    (∀ v c, jsField v "comment" = some c → jsTruthy c = false →
      parsedCommentOf v = JsValue.str "") ∧
    (∀ v xs, jsField v "tips" = some (JsValue.arr xs) → parsedTipsOf v = xs) ∧
    (∀ v, (∀ xs, jsField v "tips" ≠ some (JsValue.arr xs)) → parsedTipsOf v = []) := by
  refine ⟨fun t => rfl, fun parts => rfl, fun s => rfl, rfl, ?_, ?_, ?_, ?_, ?_,
    ?_, ?_, ?_, ?_, ?_, ?_⟩
  · constructor
    · intro h
      by_contra hne
      cases hj : jsonParse (jsonTextOf (jsTrim (extractText resp))) with
      | none => simp [parseGeminiResult, hne, hj] at h
      | some v => simp [parseGeminiResult, hne, hj] at h
    · intro h; simp [parseGeminiResult, h]
  · exact fun t m h => braceSpan_some_decomp t m h
  · exact fun t pre mid suf h => braceSpan_none_no_pair t pre mid suf h
  · intro hne hj
    simp [parseGeminiResult, hne, hj]
  · intro v hne hj
    simp [parseGeminiResult, hne, hj]
  · intro v n h
    simp [parsedChangeOf, h]
  · intro v h
    unfold parsedChangeOf
    cases hf : jsField v "change" with
    | none => rfl
    | some w =>
      cases w with
      | null => rfl
      | bool b => rfl
      | num n => exact absurd hf (h n)
      | str s => rfl
      | arr xs => rfl
      | obj fs => rfl
  · intro v h
    simp [parsedCommentOf, h]
  · intro v c h ht
    simp [parsedCommentOf, h, jsOr, ht]
  · intro v xs h
    simp [parsedTipsOf, h]
  · intro v h
    unfold parsedTipsOf
    cases hf : jsField v "tips" with
    | none => rfl
    | some w =>
      cases w with
      | null => rfl
      | bool b => rfl
      | num n => rfl
      | str s => rfl
      | arr xs => exact absurd hf (h xs)
      | obj fs => rfl

/-- Witness for C7 at a concrete input: a plain-string response whose brace
span parses to an object with a numeric change, an absent comment and
non-array tips; the parser returns change 7, empty comment, empty tips, and
the brace-span decomposition holds on the concrete text. -/
theorem c7_parser_shapes_and_defaults_witness :
    parseGeminiResult
        (fun s => if s = "\x7b\x22change\x22: 7\x7d" then
          some (JsValue.obj [("change", JsValue.num 7), ("tips", JsValue.str "x")])
          else none)
        (GeminiResp.plain " note \x7b\x22change\x22: 7\x7d ") =
      Except.ok ⟨7, JsValue.str "", []⟩ ∧
    (∃ pre suf, (" note \x7b\x22change\x22: 7\x7d" : String).data =
      pre ++ ("\x7b\x22change\x22: 7\x7d" : String).data ++ suf ∧
      lbrace ∉ pre ∧ rbrace ∉ suf ∧
      ("\x7b\x22change\x22: 7\x7d" : String).data.head? = some lbrace ∧
      ("\x7b\x22change\x22: 7\x7d" : String).data.getLast? = some rbrace) := by
  constructor
  · have h := (c7_parser_shapes_and_defaults
      (fun s => if s = "\x7b\x22change\x22: 7\x7d" then
        some (JsValue.obj [("change", JsValue.num 7), ("tips", JsValue.str "x")])
        else none)
      (GeminiResp.plain " note \x7b\x22change\x22: 7\x7d ")).2.2.2.2.2.2.2.2.1
      (JsValue.obj [("change", JsValue.num 7), ("tips", JsValue.str "x")])
      (by decide) rfl
    exact h
  · exact (c7_parser_shapes_and_defaults (fun _ => none)
      (GeminiResp.plain "")).2.2.2.2.2.1
      " note \x7b\x22change\x22: 7\x7d" "\x7b\x22change\x22: 7\x7d" (by decide)

end ReligionGame
